import Mathlib

/-!
Verification of the response-normalization and deduplication layer
(`src/message_adapter.py`, `src/request_cache.py`) of the
claude-code-openai-wrapper repository, against its specification.

Strings are modelled as `List Char`; Python `time.time()` is passed in as an
explicit `now : Int` parameter; the response payload stored in the cache is an
arbitrary type `α`.
-/

namespace CCW

/-! ## Python string primitives -/

/-- The backtick character, written via its code point. -/
def tick : Char := '\x60'

/-- Characters treated as whitespace by Python `str.strip()` (ASCII model). -/
def pyIsWs (c : Char) : Bool :=
  c = ' ' || c = '\t' || c = '\n' || c = '\r' || c = '\x0b' || c = '\x0c'

/-- Left trim, as in Python `str.strip()` (leading part). -/
def trimL (l : List Char) : List Char := l.dropWhile pyIsWs

/-- Right trim, as in Python `str.strip()` (trailing part). -/
def trimR (l : List Char) : List Char := (l.reverse.dropWhile pyIsWs).reverse

/-- Python `str.strip()`. -/
def pyStrip (l : List Char) : List Char := trimR (trimL l)

/-- Convenience: the character list of a string literal. -/
def str (s : String) : List Char := s.data

/-! ## JSON validity (model of Python `json.loads` acceptance)

A recursive-descent checker for the grammar accepted by Python's
`json.loads` with default settings: objects, arrays, double-quoted strings
with the standard escapes, numbers without leading zeros, `true`, `false`,
`null`, and the CPython extensions `NaN`, `Infinity`, `-Infinity`.
Nesting recursion is bounded by a fuel parameter; fuel `length + 1` is
always sufficient because every recursive call consumes at least one
character first. -/

/-- JSON whitespace (`json.decoder` skips exactly these four). -/
def jsonWs (c : Char) : Bool := c = ' ' || c = '\t' || c = '\n' || c = '\r'

/-- Skip JSON whitespace. -/
def skipWs : List Char → List Char
  | [] => []
  | c :: cs => if jsonWs c then skipWs cs else c :: cs

def isDigitCh (c : Char) : Bool := '0' ≤ c && c ≤ '9'

def isDigit19 (c : Char) : Bool := '1' ≤ c && c ≤ '9'

def isHexCh (c : Char) : Bool :=
  ('0' ≤ c && c ≤ '9') || ('a' ≤ c && c ≤ 'f') || ('A' ≤ c && c ≤ 'F')

/-- Parse the remainder of a JSON string after the opening quote; return the
text after the closing quote. Unescaped control characters are rejected
(`strict=True` default). -/
def parseStringRest : List Char → Option (List Char)
  | [] => none
  | c :: cs =>
    if c = '"' then some cs
    else if c = '\\' then
      match cs with
      | [] => none
      | e :: cs2 =>
        if e = 'u' then
          match cs2 with
          | h1 :: h2 :: h3 :: h4 :: cs3 =>
            if isHexCh h1 && isHexCh h2 && isHexCh h3 && isHexCh h4 then
              parseStringRest cs3
            else none
          | _ => none
        else if e = '"' || e = '\\' || e = '/' || e = 'b' || e = 'f' ||
                e = 'n' || e = 'r' || e = 't' then
          parseStringRest cs2
        else none
    else if c.toNat < 32 then none
    else parseStringRest cs

/-- Optional fraction part `.digits` of a JSON number. -/
def parseFrac : List Char → Option (List Char)
  | [] => some []
  | c :: cs =>
    if c = '.' then
      match cs with
      | [] => none
      | d :: ds => if isDigitCh d then some (ds.dropWhile isDigitCh) else none
    else some (c :: cs)

/-- Optional exponent part `[eE][+-]?digits` of a JSON number. -/
def parseExp : List Char → Option (List Char)
  | [] => some []
  | c :: cs =>
    if c = 'e' || c = 'E' then
      let cs2 := match cs with
        | s :: rest => if s = '+' || s = '-' then rest else s :: rest
        | [] => []
      match cs2 with
      | [] => none
      | d :: ds => if isDigitCh d then some (ds.dropWhile isDigitCh) else none
    else some (c :: cs)

/-- Parse a JSON number (matching the `json` module's `NUMBER_RE`). -/
def parseNumber (l : List Char) : Option (List Char) :=
  let l1 := match l with
    | c :: cs => if c = '-' then cs else c :: cs
    | [] => []
  match l1 with
  | [] => none
  | c :: cs =>
    if c = '0' then (parseFrac cs).bind parseExp
    else if isDigit19 c then (parseFrac (cs.dropWhile isDigitCh)).bind parseExp
    else none

/-- Parser mode: a whole value, the member list of an object (positioned at
the first key), or the element list of an array (positioned at the first
element). -/
inductive PMode
  | value
  | members
  | elems

/-- One recursive parser covering values, object members and array elements.
Structural recursion on the fuel argument; every recursive call strictly
decreases it, and at most two decrements happen per input character consumed,
so fuel `2 * length + 2` always suffices. -/
def parseRun : Nat → PMode → List Char → Option (List Char)
  | 0, _, _ => none
  | _ + 1, PMode.value, [] => none
  | fuel + 1, PMode.value, c :: cs =>
    if c = '{' then
      match skipWs cs with
      | [] => none
      | c2 :: r => if c2 = '}' then some r else parseRun fuel PMode.members (c2 :: r)
    else if c = '[' then
      match skipWs cs with
      | [] => none
      | c2 :: r => if c2 = ']' then some r else parseRun fuel PMode.elems (c2 :: r)
    else if c = '"' then parseStringRest cs
    else if c = 't' then
      if (str "rue").isPrefixOf cs then some (cs.drop 3) else none
    else if c = 'f' then
      if (str "alse").isPrefixOf cs then some (cs.drop 4) else none
    else if c = 'n' then
      if (str "ull").isPrefixOf cs then some (cs.drop 3) else none
    else if c = 'N' then
      if (str "aN").isPrefixOf cs then some (cs.drop 2) else none
    else if c = 'I' then
      if (str "nfinity").isPrefixOf cs then some (cs.drop 7) else none
    else if c = '-' then
      if (str "Infinity").isPrefixOf cs then some (cs.drop 8)
      else parseNumber (c :: cs)
    else if isDigitCh c then parseNumber (c :: cs)
    else none
  | _ + 1, PMode.members, [] => none
  | fuel + 1, PMode.members, c :: cs =>
    if c = '"' then
      match parseStringRest cs with
      | none => none
      | some r1 =>
        match skipWs r1 with
        | [] => none
        | c2 :: r2 =>
          if c2 = ':' then
            match parseRun fuel PMode.value (skipWs r2) with
            | none => none
            | some r3 =>
              match skipWs r3 with
              | [] => none
              | c3 :: r4 =>
                if c3 = ',' then parseRun fuel PMode.members (skipWs r4)
                else if c3 = '}' then some r4
                else none
          else none
    else none
  | fuel + 1, PMode.elems, l =>
    match parseRun fuel PMode.value l with
    | none => none
    | some r1 =>
      match skipWs r1 with
      | [] => none
      | c2 :: r2 =>
        if c2 = ',' then parseRun fuel PMode.elems (skipWs r2)
        else if c2 = ']' then some r2
        else none

/-- Parse one JSON value. -/
def parseValue (fuel : Nat) (l : List Char) : Option (List Char) :=
  parseRun fuel PMode.value l

/-- Acceptance by Python `json.loads`: one value, possibly surrounded by
whitespace, consuming the whole input. -/
def json_loads_ok (l : List Char) : Bool :=
  match parseValue (2 * l.length + 2) (skipWs l) with
  | some r => (skipWs r).isEmpty
  | none => false

/-! ## MessageAdapter (`src/message_adapter.py`)

`extract_json` and its helpers, translated from the source. Python strings
become `List Char`; `json.loads` validation becomes `json_loads_ok`. -/

/-- `MessageAdapter.COMMON_PREAMBLES`, in source order. -/
def COMMON_PREAMBLES : List String :=
  [ "Here\x27s the JSON:"
  , "Here is the JSON:"
  , "Here\x27s the response:"
  , "Here is the response:"
  , "Here\x27s your JSON:"
  , "Here is your JSON:"
  , "Here\x27s the JSON response:"
  , "Here is the JSON response:"
  , "Here\x27s the data:"
  , "Here is the data:"
  , "Here\x27s the result:"
  , "Here is the result:"
  , "Here\x27s the output:"
  , "Here is the output:"
  , "The JSON is:"
  , "JSON response:"
  , "Response:"
  , "Output:"
  , "Result:" ]

/-- Case-insensitive prefix test (model of matching a literal pattern under
`re.IGNORECASE`, and of `str.lower()` + `startswith`). -/
def ciStartsWith : List Char → List Char → Bool
  | [], _ => true
  | _ :: _, [] => false
  | p :: ps, c :: cs => (Char.toLower c == Char.toLower p) && ciStartsWith ps cs

/-- Split the text at the first (case-insensitive) occurrence of `pat`,
returning the part before the occurrence and the part after it. -/
def splitOnSub (pat : List Char) : List Char → Option (List Char × List Char)
  | [] => if ciStartsWith pat [] then some ([], []) else none
  | c :: cs =>
    if ciStartsWith pat (c :: cs) then some ([], List.drop pat.length (c :: cs))
    else
      match splitOnSub pat cs with
      | some (pre, post) => some (c :: pre, post)
      | none => none

/-- Model of `re.findall(tag + r"\s*([\s\S]*?)\s*" + "```", content, re.IGNORECASE)`:
each match runs from an occurrence of the opening tag to the next closing
fence, non-overlapping, left to right. The returned texts are the raw
regions between the delimiters; the `\s*` trimming done by the regex groups
is subsumed by the `strip()` the caller applies to every candidate. -/
def findallFence (tag : List Char) : Nat → List Char → List (List Char)
  | 0, _ => []
  | fuel + 1, s =>
    match splitOnSub tag s with
    | none => []
    | some (_, r1) =>
      match splitOnSub (str "```") r1 with
      | none => []
      | some (inner, r2) => inner :: findallFence tag fuel r2

/-- First fenced candidate that validates, after stripping (the body of the
`for match in matches` loop). -/
def firstValid : List (List Char) → Option (List Char)
  | [] => none
  | m :: ms =>
    if json_loads_ok (pyStrip m) then some (pyStrip m) else firstValid ms

/-- The suffix of the text starting at the first occurrence of `c0`
(`content.find(start_char)` plus slicing). -/
def dropFrom (c0 : Char) : List Char → Option (List Char)
  | [] => none
  | c :: cs => if c = c0 then some (c :: cs) else dropFrom c0 cs

/-- The scanning loop of `MessageAdapter._find_balanced_json`: depth counter
with in-string and escape-pending flags; at the close that returns the depth
to zero the candidate is validated — on failure the scan stops with no
retry. `acc` accumulates the consumed characters in reverse. -/
def balancedScan (sc ec : Char) : List Char → Int → Bool → Bool → List Char →
    Option (List Char)
  | [], _, _, _, _ => none
  | c :: cs, depth, inStr, esc, acc =>
    if esc then balancedScan sc ec cs depth inStr false (c :: acc)
    else if c = '\\' then balancedScan sc ec cs depth inStr true (c :: acc)
    else if c = '"' then balancedScan sc ec cs depth (!inStr) esc (c :: acc)
    else if inStr then balancedScan sc ec cs depth inStr esc (c :: acc)
    else if c = sc then balancedScan sc ec cs (depth + 1) inStr esc (c :: acc)
    else if c = ec then
      if depth = 1 then
        if json_loads_ok ((c :: acc).reverse) then some ((c :: acc).reverse) else none
      else balancedScan sc ec cs (depth - 1) inStr esc (c :: acc)
    else balancedScan sc ec cs depth inStr esc (c :: acc)

/-- `MessageAdapter._find_balanced_json`. -/
def find_balanced_json (content : List Char) (sc ec : Char) : Option (List Char) :=
  match dropFrom sc content with
  | none => none
  | some suffix => balancedScan sc ec suffix 0 false false []

/-- Modelled from the spec (§4.1 step 4): the raw balanced-structure scan —
walk from the first opening character with a string-aware, escape-aware
depth counter and return the span at which the depth first returns to zero,
or nothing if the text ends with nonzero depth. Identical to the source scan
except that the candidate is reported without validation. -/
def balancedSpanScan (sc ec : Char) : List Char → Int → Bool → Bool → List Char →
    Option (List Char)
  | [], _, _, _, _ => none
  | c :: cs, depth, inStr, esc, acc =>
    if esc then balancedSpanScan sc ec cs depth inStr false (c :: acc)
    else if c = '\\' then balancedSpanScan sc ec cs depth inStr true (c :: acc)
    else if c = '"' then balancedSpanScan sc ec cs depth (!inStr) esc (c :: acc)
    else if inStr then balancedSpanScan sc ec cs depth inStr esc (c :: acc)
    else if c = sc then balancedSpanScan sc ec cs (depth + 1) inStr esc (c :: acc)
    else if c = ec then
      if depth = 1 then some ((c :: acc).reverse)
      else balancedSpanScan sc ec cs (depth - 1) inStr esc (c :: acc)
    else balancedSpanScan sc ec cs depth inStr esc (c :: acc)

/-- Modelled from the spec (§4.1 step 4): the candidate span of the
balanced-structure strategy, before validation. -/
def balancedSpan (content : List Char) (sc ec : Char) : Option (List Char) :=
  match dropFrom sc content with
  | none => none
  | some suffix => balancedSpanScan sc ec suffix 0 false false []

/-- Index of the first occurrence of a character (`str.find`). -/
def idxOfChar (c0 : Char) : List Char → Option Nat
  | [] => none
  | c :: cs => if c = c0 then some 0 else (idxOfChar c0 cs).map (· + 1)

/-- Index of the last occurrence of a character (`str.rfind`). -/
def lastIdxOfChar (c0 : Char) (l : List Char) : Option Nat :=
  (idxOfChar c0 l.reverse).map (fun i => l.length - 1 - i)

/-- One bracket pair of the first-to-last fallback (case 5 of
`extract_json`). -/
def first_to_last (content : List Char) (oc cc : Char) : Option (List Char) :=
  match idxOfChar oc content, lastIdxOfChar cc content with
  | some i, some j =>
    if i < j then
      if json_loads_ok ((content.drop i).take (j - i + 1)) then
        some ((content.drop i).take (j - i + 1))
      else none
    else none
  | _, _ => none

/-- Python truthiness of an optional string (`if extracted:` /
`if balanced_obj:`): `None` and the empty string are falsy. -/
def truthy (o : Option (List Char)) : Option (List Char) :=
  match o with
  | none => none
  | some s => if s = [] then none else some s

/-- Case 2 of `extract_json`: find the first preamble whose lowercase form
prefixes the lowercased content; strip it and validate. The loop `break`s
after the first matching preamble whether or not validation succeeds, so at
most one preamble is ever tried. Returns the validated remainder together
with the matched preamble. -/
def tryPreamble (c : List Char) : Option (List Char × String) :=
  match COMMON_PREAMBLES.find? (fun p => (p.data.map Char.toLower).isPrefixOf (c.map Char.toLower)) with
  | none => none
  | some p =>
    if json_loads_ok (pyStrip (c.drop p.data.length)) then
      some (pyStrip (c.drop p.data.length), p)
    else none

/-- Case 3 of `extract_json`: the `"```json"`-tagged pattern is tried before
the untagged one; within a pattern, candidates in document order. -/
def tryFences (c : List Char) : Option (List Char) :=
  match firstValid (findallFence (str "```json") (c.length + 1) c) with
  | some m => some m
  | none => firstValid (findallFence (str "```") (c.length + 1) c)

/-- `MessageAdapter.extract_json`. -/
def extract_json (content : List Char) : Option (List Char) :=
  if content = [] then none
  else
    if json_loads_ok (pyStrip content) then some (pyStrip content)
    else
      match tryPreamble (pyStrip content) with
      | some (s, _) => some s
      | none =>
        match tryFences (pyStrip content) with
        | some m => some m
        | none =>
          match truthy (find_balanced_json (pyStrip content) '{' '}') with
          | some b => some b
          | none =>
            match truthy (find_balanced_json (pyStrip content) '[' ']') with
            | some b => some b
            | none =>
              match first_to_last (pyStrip content) '{' '}' with
              | some f => some f
              | none => first_to_last (pyStrip content) '[' ']'

/-- `JsonExtractionResult` (dataclass). -/
structure JsonExtractionResult where
  content : Option (List Char)
  success : Bool
  method : String
  original_length : Nat
  extracted_length : Nat
  preamble_found : Option String

/-- `MessageAdapter.extract_json_with_metadata`: the same cascade as
`extract_json`, additionally reporting success, method, lengths, and the
removed preamble. -/
def extract_json_with_metadata (content : List Char) : JsonExtractionResult :=
  if content = [] then ⟨none, false, "failed", 0, 0, none⟩
  else
    if json_loads_ok (pyStrip content) then
      ⟨some (pyStrip content), true, "direct", content.length,
        (pyStrip content).length, none⟩
    else
      match tryPreamble (pyStrip content) with
      | some (s, p) => ⟨some s, true, "preamble_removed", content.length, s.length, some p⟩
      | none =>
        match tryFences (pyStrip content) with
        | some m => ⟨some m, true, "code_block", content.length, m.length, none⟩
        | none =>
          match truthy (find_balanced_json (pyStrip content) '{' '}') with
          | some b => ⟨some b, true, "brace_match", content.length, b.length, none⟩
          | none =>
            match truthy (find_balanced_json (pyStrip content) '[' ']') with
            | some b => ⟨some b, true, "brace_match", content.length, b.length, none⟩
            | none =>
              match first_to_last (pyStrip content) '{' '}' with
              | some f => ⟨some f, true, "fallback", content.length, f.length, none⟩
              | none =>
                match first_to_last (pyStrip content) '[' ']' with
                | some f => ⟨some f, true, "fallback", content.length, f.length, none⟩
                | none => ⟨none, false, "failed", content.length, 0, none⟩

/-- `MessageAdapter.enforce_json_format`. -/
def enforce_json_format (content : List Char) (strict : Bool) : List Char :=
  match truthy (extract_json content) with
  | some s => s
  | none => if strict then str "[]" else content

/-- Wrapping a text in a language-tagged markdown fence. -/
def fence_wrap_json (j : List Char) : List Char :=
  str "```json\n" ++ j ++ str "\n```"

/-- Wrapping a text in an untagged markdown fence. -/
def fence_wrap_plain (j : List Char) : List Char :=
  str "```\n" ++ j ++ str "\n```"

/-- Whether a text contains the code-fence marker (three consecutive
backticks). -/
def containsFence (l : List Char) : Bool :=
  (splitOnSub (str "```") l).isSome

/-! ## RequestCache (`src/request_cache.py`)

The `OrderedDict` is modelled as an association list in insertion/recency
order (head = oldest / least-recently-used, last = most-recently-used).
`time.time()` becomes an explicit `now : Int` argument; the opaque response
payload is a type parameter `α`. An operation that would raise an exception
(the `next(iter(...))` of the eviction loop on an empty dict) returns
`none`. -/

/-- `CacheEntry` (dataclass). -/
structure CacheEntry (α : Type) where
  response : α
  created_at : Int
  expires_at : Int
  hit_count : Nat
  deriving DecidableEq

/-- A request, exposing the six canonical fields read by `_compute_hash`
plus the fields the hash excludes (`stream`, `session_id`, other metadata).
A `none` field models a key absent from the request dict (`dict.get`
returning `None`). Messages are (role, content) pairs. -/
structure Request where
  model : Option String
  messages : Option (List (String × String))
  temperature : Option Int
  max_tokens : Option Int
  response_format : Option String
  top_p : Option Int
  stream : Option Bool
  session_id : Option String
  extra_metadata : Option String
  deriving DecidableEq

/-- The six canonical fields, in the order listed by `_compute_hash`. -/
def canonicalFields (r : Request) :
    Option String × Option (List (String × String)) × Option Int × Option Int ×
      Option String × Option Int :=
  (r.model, r.messages, r.temperature, r.max_tokens, r.response_format, r.top_p)

def quoteStr (s : String) : String := "\"" ++ s ++ "\""

def encOptStr : Option String → String
  | none => "null"
  | some s => quoteStr s

def encOptInt : Option Int → String
  | none => "null"
  | some n => toString n

def encMsgs : Option (List (String × String)) → String
  | none => "null"
  | some l =>
    "[" ++ String.intercalate ", "
      (l.map (fun m =>
        "\x7b\"content\": " ++ quoteStr m.2 ++ ", \"role\": " ++ quoteStr m.1 ++ "\x7d"))
      ++ "]"

/-- Modelled from the spec (§3 Fingerprint): the SHA-256 digest of
`json.dumps(..., sort_keys=True)` is modelled as the serialization itself —
a deterministic stand-in that preserves exactly what the claims use: the
fingerprint is a function of the serialized canonical fields. -/
def sha256_model (s : String) : String := s

/-- `RequestCache._compute_hash`: serialize only the six canonical fields,
with stable (sorted) key order, and hash. Every other request field is
excluded by construction. -/
def compute_hash (r : Request) : String :=
  sha256_model
    ("\x7b\"max_tokens\": " ++ encOptInt r.max_tokens ++
      ", \"messages\": " ++ encMsgs r.messages ++
      ", \"model\": " ++ encOptStr r.model ++
      ", \"response_format\": " ++ encOptStr r.response_format ++
      ", \"temperature\": " ++ encOptInt r.temperature ++
      ", \"top_p\": " ++ encOptInt r.top_p ++ "\x7d")

/-- Cache statistics (`self._stats`). -/
structure CacheStats where
  hits : Nat
  misses : Nat
  evictions : Nat
  expirations : Nat
  deriving DecidableEq

/-- `RequestCache` state. -/
structure RequestCache (α : Type) where
  enabled : Bool
  max_size : Int
  ttl_seconds : Int
  cache : List (String × CacheEntry α)
  stats : CacheStats
  deriving DecidableEq

/-- `RequestCache.__init__`: accepts any configuration — the source performs
no validation of `max_size` or `ttl_seconds`. -/
def RequestCache.init (α : Type) (enabled : Bool) (max_size ttl_seconds : Int) :
    RequestCache α :=
  ⟨enabled, max_size, ttl_seconds, [], ⟨0, 0, 0, 0⟩⟩

variable {α : Type}

/-- Association-list lookup (`cache_key in self._cache` / `self._cache[k]`). -/
def lookupKey (k : String) : List (String × CacheEntry α) → Option (CacheEntry α)
  | [] => none
  | (k', v) :: rest => if k' = k then some v else lookupKey k rest

/-- `del self._cache[k]`: remove the entry with the given key. -/
def eraseKey (k : String) : List (String × CacheEntry α) → List (String × CacheEntry α)
  | [] => []
  | (k', v) :: rest => if k' = k then rest else (k', v) :: eraseKey k rest

/-- `self._cache[k] = v` on an `OrderedDict`: replace in place if the key is
present (the position is NOT changed), append at the (most-recently-used)
end otherwise. -/
def dictAssign (k : String) (v : CacheEntry α) :
    List (String × CacheEntry α) → List (String × CacheEntry α)
  | [] => [(k, v)]
  | (k', v') :: rest =>
    if k' = k then (k', v) :: rest else (k', v') :: dictAssign k v rest

/-- `RequestCache.get`. Returns the optional cached response and the
post-state. -/
def RequestCache.get (s : RequestCache α) (now : Int) (r : Request) :
    Option α × RequestCache α :=
  if !s.enabled then (none, s)
  else
    let k := compute_hash r
    match lookupKey k s.cache with
    | none => (none, { s with stats := { s.stats with misses := s.stats.misses + 1 } })
    | some e =>
      if now > e.expires_at then
        (none, { s with
          cache := eraseKey k s.cache,
          stats := { s.stats with
            expirations := s.stats.expirations + 1,
            misses := s.stats.misses + 1 } })
      else
        (some e.response, { s with
          cache := eraseKey k s.cache ++ [(k, { e with hit_count := e.hit_count + 1 })],
          stats := { s.stats with hits := s.stats.hits + 1 } })

/-- The `while len(self._cache) >= self._max_size` eviction loop of
`RequestCache.set`: drop oldest entries until below capacity, counting
evictions. `none` models the `StopIteration` escaping from
`next(iter(self._cache))` when the loop runs on an empty dict (which happens
exactly when `max_size <= 0`). -/
def evictLoop (max_size : Int) :
    List (String × CacheEntry α) → Option (List (String × CacheEntry α) × Nat)
  | [] => if (0 : Int) ≥ max_size then none else some ([], 0)
  | x :: rest =>
    if ((x :: rest).length : Int) ≥ max_size then
      (evictLoop max_size rest).map (fun p => (p.1, p.2 + 1))
    else some (x :: rest, 0)

/-- `RequestCache.set`. -/
def RequestCache.set (s : RequestCache α) (now : Int) (r : Request) (v : α) :
    Option (RequestCache α) :=
  if !s.enabled then some s
  else
    let k := compute_hash r
    match evictLoop s.max_size s.cache with
    | none => none
    | some (c', evs) =>
      some { s with
        cache := dictAssign k ⟨v, now, now + s.ttl_seconds, 0⟩ c',
        stats := { s.stats with evictions := s.stats.evictions + evs } }

/-- `RequestCache.clear`. -/
def RequestCache.clear (s : RequestCache α) : Nat × RequestCache α :=
  (s.cache.length, { s with cache := [] })

/-- `RequestCache.cleanup_expired`. -/
def RequestCache.cleanup_expired (s : RequestCache α) (now : Int) :
    Nat × RequestCache α :=
  let removed := (s.cache.filter (fun kv => decide (now > kv.2.expires_at))).length
  (removed,
    { s with
      cache := s.cache.filter (fun kv => !decide (now > kv.2.expires_at)),
      stats := { s.stats with expirations := s.stats.expirations + removed } })

/-- The state invariant of the cache (spec §3, claim C7): at most one entry
per fingerprint, size bounded by capacity, and fixed (non-sliding) expiry
`expires_at = created_at + ttl`. -/
def Inv (s : RequestCache α) : Prop :=
  (s.cache.map Prod.fst).Nodup ∧
  (s.cache.length : Int) ≤ s.max_size ∧
  ∀ kv ∈ s.cache, kv.2.expires_at = kv.2.created_at + s.ttl_seconds

/-! ## Concrete inputs used to exercise the theorems -/

/-- A request naming model "a", with stream and session metadata set. -/
def reqA : Request :=
  ⟨some "a", some [("user", "Hello")], none, none, none, none, some false, some "s1", none⟩

/-- The same canonical fields as `reqA` but different stream flag, session
identifier and metadata. -/
def reqA2 : Request :=
  ⟨some "a", some [("user", "Hello")], none, none, none, none, some true, some "s2", some "m"⟩

/-- A request naming model "b". -/
def reqB : Request :=
  ⟨some "b", some [("user", "Hello")], none, none, none, none, none, none, none⟩

/-- A request naming model "c". -/
def reqC : Request :=
  ⟨some "c", none, none, none, none, none, none, none, none⟩

/-- A one-entry enabled cache built by `set` at time 0 with TTL 60 (used to
exercise expiry at time 61). -/
def cacheW : RequestCache Nat :=
  (((RequestCache.init Nat true 10 60).set 0 reqA 7)).getD (RequestCache.init Nat true 10 60)

/-- A one-entry enabled cache with capacity 2 (below capacity). -/
def cacheOne : RequestCache Nat :=
  (((RequestCache.init Nat true 2 60).set 0 reqA 1)).getD (RequestCache.init Nat true 2 60)

/-- A two-entry enabled cache at capacity 2. -/
def cacheTwo : RequestCache Nat :=
  ((cacheOne.set 1 reqB 2)).getD cacheOne

/-! ## Validity of every extraction result (claim C1) -/

theorem json_loads_ok_nil : json_loads_ok [] = false := rfl

theorem truthy_eq_some {o : Option (List Char)} {s : List Char}
    (h : truthy o = some s) : o = some s := by
  cases o with
  | none => simp [truthy] at h
  | some t =>
    by_cases ht : t = []
    · simp [truthy, ht] at h
    · simpa [truthy, ht] using h

theorem firstValid_valid : ∀ (ms : List (List Char)) (s : List Char),
    firstValid ms = some s → json_loads_ok s = true := by
  intro ms
  induction ms with
  | nil => intro s h; simp [firstValid] at h
  | cons m rest ih =>
    intro s h
    by_cases hv : json_loads_ok (pyStrip m) = true
    · simp [firstValid, hv] at h
      rw [← h]; exact hv
    · simp only [firstValid] at h
      rw [if_neg hv] at h
      exact ih s h

theorem tryPreamble_valid {c s : List Char} {p : String}
    (h : tryPreamble c = some (s, p)) : json_loads_ok s = true := by
  unfold tryPreamble at h
  split at h
  · exact absurd h (by simp)
  · split at h
    · cases h; assumption
    · exact absurd h (by simp)

theorem tryFences_valid {c m : List Char} (h : tryFences c = some m) :
    json_loads_ok m = true := by
  unfold tryFences at h
  split at h
  · cases h; exact firstValid_valid _ _ (by assumption)
  · exact firstValid_valid _ _ h

theorem balancedScan_valid (sc ec : Char) :
    ∀ (l : List Char) (depth : Int) (inStr esc : Bool) (acc s : List Char),
      balancedScan sc ec l depth inStr esc acc = some s → json_loads_ok s = true := by
  intro l
  induction l with
  | nil => intro d i e a s h; simp [balancedScan] at h
  | cons c cs ih =>
    intro d i e a s h
    unfold balancedScan at h
    repeat' split at h
    all_goals
      first
        | exact ih _ _ _ _ _ h
        | (cases h; assumption)
        | exact absurd h (by simp)

theorem find_balanced_json_valid {content s : List Char} {sc ec : Char}
    (h : find_balanced_json content sc ec = some s) : json_loads_ok s = true := by
  unfold find_balanced_json at h
  split at h
  · exact absurd h (by simp)
  · exact balancedScan_valid sc ec _ _ _ _ _ _ h

theorem first_to_last_valid {content s : List Char} {oc cc : Char}
    (h : first_to_last content oc cc = some s) : json_loads_ok s = true := by
  unfold first_to_last at h
  split at h
  · split at h
    · split at h
      · cases h; assumption
      · exact absurd h (by simp)
    · exact absurd h (by simp)
  · exact absurd h (by simp)

/-- Shared core of claim C1: whatever `extract_json` returns passed
`json_loads_ok`. -/
theorem extract_json_valid_aux : ∀ {content s : List Char},
    extract_json content = some s → json_loads_ok s = true := by
  intro content s h
  unfold extract_json at h
  split at h
  · exact absurd h (by simp)
  · split at h
    · cases h; assumption
    · split at h
      · cases h
        exact tryPreamble_valid (by assumption)
      · split at h
        · cases h; exact tryFences_valid (by assumption)
        · split at h
          · cases h
            exact find_balanced_json_valid (truthy_eq_some (by assumption))
          · split at h
            · cases h
              exact find_balanced_json_valid (truthy_eq_some (by assumption))
            · split at h
              · cases h; exact first_to_last_valid (by assumption)
              · exact first_to_last_valid h

/-- Claim C1: for every input, whenever `extract_json` returns a non-none
result, the returned string parses as valid JSON; otherwise the outcome is
`none` — no partial or best-guess JSON is ever returned. -/
theorem extract_json_returns_valid_json (content s : List Char)
    (h : extract_json content = some s) : json_loads_ok s = true :=
  extract_json_valid_aux h

/-- Witness for C1 at a concrete input. -/
theorem extract_json_returns_valid_json_witness :
    json_loads_ok (str "[1]") = true :=
  extract_json_returns_valid_json (str "x [1] y") (str "[1]") (by decide)

/-! ## Characterization of the balanced-structure strategy (claim C4) -/

theorem balancedScan_eq_span (sc ec : Char) :
    ∀ (l : List Char) (depth : Int) (inStr esc : Bool) (acc : List Char),
      balancedScan sc ec l depth inStr esc acc =
        (balancedSpanScan sc ec l depth inStr esc acc).bind
          (fun cand => if json_loads_ok cand then some cand else none) := by
  intro l
  induction l with
  | nil => intro d i e a; simp [balancedScan, balancedSpanScan]
  | cons c cs ih =>
    intro d i e a
    unfold balancedScan balancedSpanScan
    split_ifs <;> first | apply ih | simp_all

/-- Claim C4: the balanced-structure strategy scans from the first opening
character with a string-aware, escape-aware depth counter; it yields the
candidate ending where the depth first returns to zero only if that
candidate validates, and yields nothing — with no retry at a later opening
bracket — if the scan ends with nonzero depth or the candidate fails to
parse. -/
theorem find_balanced_json_characterization (content : List Char) (sc ec : Char) :
    find_balanced_json content sc ec =
      (balancedSpan content sc ec).bind
        (fun cand => if json_loads_ok cand then some cand else none) := by
  unfold find_balanced_json balancedSpan
  split
  · rfl
  · exact balancedScan_eq_span sc ec _ _ _ _ _

/-! ## `enforce_json_format` (claim C8) -/

/-- Claim C8: `enforce_json_format` returns the extracted JSON when
extraction succeeds; on failure it returns exactly `"[]"` in strict mode and
the original input unchanged otherwise. -/
theorem enforce_json_format_spec (content : List Char) (strict : Bool) :
    (∀ s, extract_json content = some s → enforce_json_format content strict = s) ∧
    (extract_json content = none →
      enforce_json_format content strict = if strict then str "[]" else content) := by
  constructor
  · intro s hs
    have hv := extract_json_valid_aux hs
    have hne : s ≠ [] := by
      intro he
      rw [he, json_loads_ok_nil] at hv
      exact Bool.false_ne_true hv
    unfold enforce_json_format
    rw [hs]
    simp [truthy, hne]
  · intro hn
    unfold enforce_json_format
    rw [hn]
    simp [truthy]

/-- Witness for C8: a succeeding input, and a failing input in both modes. -/
theorem enforce_json_format_spec_witness :
    enforce_json_format (str "Output: [3]") true = str "[3]" ∧
    enforce_json_format (str "zz") true = str "[]" ∧
    enforce_json_format (str "zz") false = str "zz" := by
  refine ⟨(enforce_json_format_spec (str "Output: [3]") true).1 (str "[3]") (by decide),
    ?_, ?_⟩
  · have h := (enforce_json_format_spec (str "zz") true).2 (by decide)
    simpa using h
  · have h := (enforce_json_format_spec (str "zz") false).2 (by decide)
    simpa using h

/-! ## Agreement of the plain and metadata-bearing extraction (claim C10) -/

/-- Claim C10: for every input, `extract_json_with_metadata` returns the same
content as `extract_json`, and its success flag is true exactly when that
content is present. -/
theorem extract_json_with_metadata_agrees (content : List Char) :
    (extract_json_with_metadata content).content = extract_json content ∧
    ((extract_json_with_metadata content).success = true ↔
      (extract_json content).isSome = true) := by
  unfold extract_json extract_json_with_metadata
  by_cases h0 : content = []
  · simp [h0]
  · rw [if_neg h0, if_neg h0]
    by_cases h1 : json_loads_ok (pyStrip content) = true
    · simp [h1]
    · rw [if_neg h1, if_neg h1]
      cases h2 : tryPreamble (pyStrip content) with
      | some sp => cases sp; simp
      | none =>
        cases h3 : tryFences (pyStrip content) with
        | some m => simp
        | none =>
          cases h4 : truthy (find_balanced_json (pyStrip content) '{' '}') with
          | some b => simp
          | none =>
            cases h5 : truthy (find_balanced_json (pyStrip content) '[' ']') with
            | some b => simp
            | none =>
              cases h6 : first_to_last (pyStrip content) '{' '}' with
              | some f => simp
              | none =>
                cases h7 : first_to_last (pyStrip content) '[' ']' with
                | some f => simp
                | none => simp

/-! ## Fence round-trips (claim C9): helper lemmas -/

theorem ciStartsWith_append (pat : List Char) :
    ∀ (a b : List Char), pat.length ≤ a.length →
      ciStartsWith pat (a ++ b) = ciStartsWith pat a := by
  induction pat with
  | nil => intro a b _; simp [ciStartsWith]
  | cons p ps ih =>
    intro a b h
    cases a with
    | nil => simp at h
    | cons c cs =>
      simp only [List.cons_append, ciStartsWith, List.append_eq]
      rw [ih cs b (by simpa using h)]

theorem ci7_to_ci3 : ∀ (s : List Char),
    ciStartsWith (str "```json") s = true → ciStartsWith (str "```") s = true := by
  intro s h
  rcases s with _ | ⟨a, _ | ⟨b, _ | ⟨c, r⟩⟩⟩ <;>
    simp_all [str, ciStartsWith]

theorem splitOnSub_cons_false {pat : List Char} {c : Char} {cs : List Char}
    (h : ciStartsWith pat (c :: cs) = false) :
    splitOnSub pat (c :: cs) =
      (splitOnSub pat cs).map (fun p => (c :: p.1, p.2)) := by
  rw [splitOnSub, if_neg (by simp [h])]
  cases h2 : splitOnSub pat cs with
  | none => simp
  | some pr => cases pr; simp

theorem splitOnSub_none_cons {pat : List Char} {c : Char} {cs : List Char}
    (h : splitOnSub pat (c :: cs) = none) :
    ciStartsWith pat (c :: cs) = false ∧ splitOnSub pat cs = none := by
  by_cases hci : ciStartsWith pat (c :: cs) = true
  · rw [splitOnSub, if_pos (by simp [hci])] at h
    exact absurd h (by simp)
  · refine ⟨by simpa using hci, ?_⟩
    rw [splitOnSub, if_neg (by simpa using hci)] at h
    cases h2 : splitOnSub pat cs with
    | none => rfl
    | some pr => rw [h2] at h; rcases pr with ⟨x, y⟩; simp at h

theorem ci3_false_extend {c : Char} {cs' : List Char} (rest : List Char)
    (h1 : ciStartsWith (str "```") (c :: cs') = false) :
    ciStartsWith (str "```") (c :: (cs' ++ '\n' :: rest)) = false := by
  rcases cs' with _ | ⟨c2, _ | ⟨c3, r⟩⟩
  · simp_all [str, ciStartsWith]
  · simp_all [str, ciStartsWith]
  · have hsh : (c :: (c2 :: c3 :: r ++ '\n' :: rest)) = (c :: c2 :: c3 :: r) ++ '\n' :: rest := by
      simp
    rw [hsh, ciStartsWith_append _ _ _ (by simp [str])]
    exact h1

theorem splitOnSub_fence_boundary :
    ∀ (j : List Char), splitOnSub (str "```") j = none →
      ∀ (cs : List Char),
        splitOnSub (str "```") (j ++ '\n' :: (str "```" ++ cs)) = some (j ++ ['\n'], cs) := by
  intro j
  induction j with
  | nil => intro _ cs; rfl
  | cons c cs' ih =>
    intro hnf cs
    obtain ⟨h1, h2⟩ := splitOnSub_none_cons hnf
    have hstep := ci3_false_extend (str "```" ++ cs) h1
    rw [List.cons_append, splitOnSub_cons_false hstep, ih h2 cs]
    simp

theorem splitOnSub_p7_skip :
    ∀ (j : List Char), splitOnSub (str "```") j = none →
      splitOnSub (str "```json") (j ++ '\n' :: (str "```")) = none := by
  intro j
  induction j with
  | nil => intro _; rfl
  | cons c cs' ih =>
    intro hnf
    obtain ⟨h1, h2⟩ := splitOnSub_none_cons hnf
    have hstep : ciStartsWith (str "```json") (c :: (cs' ++ '\n' :: str "```")) = false := by
      by_cases h7 : ciStartsWith (str "```json") (c :: (cs' ++ '\n' :: str "```")) = true
      · have h3 := ci7_to_ci3 _ h7
        rw [ci3_false_extend (str "```") h1] at h3
        exact absurd h3 (by simp)
      · simpa using h7
    rw [List.cons_append, splitOnSub_cons_false hstep, ih h2]
    rfl

theorem length_dropWhile_le_self (p : Char → Bool) :
    ∀ (l : List Char), (l.dropWhile p).length ≤ l.length := by
  intro l
  induction l with
  | nil => simp
  | cons a t ih =>
    by_cases hp : p a = true
    · rw [List.dropWhile_cons_of_pos hp]
      exact ih.trans (by simp)
    · rw [List.dropWhile_cons_of_neg (by simp [hp])]

theorem dropWhile_eq_self_of_length {p : Char → Bool} :
    ∀ {l : List Char}, (l.dropWhile p).length = l.length → l.dropWhile p = l := by
  intro l
  induction l with
  | nil => intro _; rfl
  | cons a t ih =>
    intro h
    by_cases hp : p a = true
    · rw [List.dropWhile_cons_of_pos hp] at h ⊢
      have := length_dropWhile_le_self p t
      simp at h
      omega
    · rw [List.dropWhile_cons_of_neg (by simp [hp])]

theorem trimL_length_le (l : List Char) : (trimL l).length ≤ l.length :=
  length_dropWhile_le_self _ _

theorem trimR_length_le (l : List Char) : (trimR l).length ≤ l.length := by
  unfold trimR
  simpa using length_dropWhile_le_self pyIsWs l.reverse

theorem of_pyStrip_eq {l : List Char} (h : pyStrip l = l) :
    trimL l = l ∧ trimR l = l := by
  have h2 : (trimL l).length ≤ l.length := trimL_length_le _
  have h1 : (trimR (trimL l)).length ≤ (trimL l).length := trimR_length_le _
  have hlen : (trimR (trimL l)).length = l.length := by
    rw [show trimR (trimL l) = l from h]
  have hL : trimL l = l := dropWhile_eq_self_of_length (by unfold trimL at *; omega)
  constructor
  · exact hL
  · rw [pyStrip, hL] at h
    exact h

theorem trimL_cons_not_ws {a : Char} {l : List Char} (h : pyIsWs a = false) :
    trimL (a :: l) = a :: l := by
  have h2 : ¬ pyIsWs a = true := by simp [h]
  simp [trimL, List.dropWhile_cons_of_neg h2]

theorem trimR_concat_not_ws {a : Char} {l : List Char} (h : pyIsWs a = false) :
    trimR (l ++ [a]) = l ++ [a] := by
  have h2 : ¬ pyIsWs a = true := by simp [h]
  unfold trimR
  rw [List.reverse_append]
  simp [List.dropWhile_cons_of_neg h2]

theorem trimR_concat_nl (l : List Char) : trimR (l ++ ['\n']) = trimR l := by
  unfold trimR
  rw [List.reverse_append]
  simp [List.dropWhile_cons_of_pos (show pyIsWs '\n' = true from rfl)]

theorem head_not_ws_of_trimL {a : Char} {l : List Char}
    (h : trimL (a :: l) = a :: l) : pyIsWs a = false := by
  by_cases hp : pyIsWs a = true
  · rw [trimL, List.dropWhile_cons_of_pos hp] at h
    have h2 := length_dropWhile_le_self pyIsWs l
    rw [h] at h2
    simp at h2
  · simpa using hp

theorem pyStrip_wrapNl {j : List Char} (hj : pyStrip j = j) (hne : j ≠ []) :
    pyStrip ('\n' :: (j ++ ['\n'])) = j := by
  obtain ⟨hL, hR⟩ := of_pyStrip_eq hj
  obtain ⟨a, t, rfl⟩ : ∃ a t, j = a :: t := by
    cases j with
    | nil => exact absurd rfl hne
    | cons a t => exact ⟨a, t, rfl⟩
  have ha : pyIsWs a = false := head_not_ws_of_trimL hL
  unfold pyStrip
  rw [show trimL ('\n' :: (a :: t ++ ['\n'])) = trimL (a :: (t ++ ['\n'])) from by
    simp [trimL, List.dropWhile_cons_of_pos (show pyIsWs '\n' = true from rfl)]]
  rw [trimL_cons_not_ws ha]
  rw [show (a :: (t ++ ['\n']) : List Char) = (a :: t) ++ ['\n'] from by simp]
  rw [trimR_concat_nl]
  exact hR

theorem fwj_shape (j : List Char) : fence_wrap_json j =
    tick::tick::tick:: 'j':: 's':: 'o':: 'n':: '\n'::(j ++ ('\n'::tick::tick::tick::[])) := by
  rw [fence_wrap_json, List.append_assoc]
  rfl

theorem fwp_shape (j : List Char) : fence_wrap_plain j =
    tick::tick::tick:: '\n'::(j ++ ('\n'::tick::tick::tick::[])) := by
  rw [fence_wrap_plain, List.append_assoc]
  rfl

theorem fwj_snoc (j : List Char) : fence_wrap_json j =
    (tick::tick::tick:: 'j':: 's':: 'o':: 'n':: '\n'::(j ++ ('\n'::tick::tick::[]))) ++ [tick] := by
  rw [fwj_shape]
  simp

theorem fwp_snoc (j : List Char) : fence_wrap_plain j =
    (tick::tick::tick:: '\n'::(j ++ ('\n'::tick::tick::[]))) ++ [tick] := by
  rw [fwp_shape]
  simp

theorem pyStrip_fwj (j : List Char) :
    pyStrip (fence_wrap_json j) = fence_wrap_json j := by
  unfold pyStrip
  rw [show trimL (fence_wrap_json j) = fence_wrap_json j from by
    rw [fwj_shape]; exact trimL_cons_not_ws (by rfl)]
  rw [fwj_snoc, trimR_concat_not_ws (by rfl)]

theorem pyStrip_fwp (j : List Char) :
    pyStrip (fence_wrap_plain j) = fence_wrap_plain j := by
  unfold pyStrip
  rw [show trimL (fence_wrap_plain j) = fence_wrap_plain j from by
    rw [fwp_shape]; exact trimL_cons_not_ws (by rfl)]
  rw [fwp_snoc, trimR_concat_not_ws (by rfl)]

theorem findPreamble_tick (xs : List Char) :
    COMMON_PREAMBLES.find?
      (fun p => (p.data.map Char.toLower).isPrefixOf (tick :: xs)) = none := rfl

theorem json_loads_tick (xs : List Char) : json_loads_ok (tick :: xs) = false := rfl

theorem findallFence_nil (tag : List Char) (htag : ciStartsWith tag [] = false) :
    ∀ fuel, findallFence tag fuel [] = [] := by
  intro fuel
  cases fuel with
  | zero => rfl
  | succ n =>
    show (match splitOnSub tag [] with
      | none => []
      | some (_, r1) =>
        match splitOnSub (str "```") r1 with
        | none => []
        | some (inner, r2) => inner :: findallFence tag n r2) = []
    rw [show splitOnSub tag [] = none from by simp [splitOnSub, htag]]


theorem split1_fwj (j : List Char) :
    splitOnSub (str "```json") (fence_wrap_json j) =
      some ([], '\n' :: (j ++ ('\n'::tick::tick::tick::[]))) := by
  rw [fwj_shape]
  rfl

theorem split2_inner (j : List Char) (h2 : splitOnSub (str "```") j = none) :
    splitOnSub (str "```") ('\n' :: (j ++ ('\n'::tick::tick::tick::[]))) =
      some ('\n' :: (j ++ ['\n']), []) := by
  rw [splitOnSub_cons_false (by rfl)]
  have hb := splitOnSub_fence_boundary j h2 []
  rw [show (str "```" ++ [] : List Char) = str "```" from by simp] at hb
  rw [show (j ++ ('\n'::tick::tick::tick::[]) : List Char) = j ++ '\n' :: str "```" from rfl]
  rw [hb]
  rfl

theorem findall_p7_fwj (j : List Char) (h2 : splitOnSub (str "```") j = none) :
    findallFence (str "```json") ((fence_wrap_json j).length + 1) (fence_wrap_json j) =
      ['\n' :: (j ++ ['\n'])] := by
  show (match splitOnSub (str "```json") (fence_wrap_json j) with
    | none => []
    | some (_, r1) =>
      match splitOnSub (str "```") r1 with
      | none => []
      | some (inner, r2) =>
        inner :: findallFence (str "```json") (fence_wrap_json j).length r2) =
      ['\n' :: (j ++ ['\n'])]
  rw [split1_fwj]
  dsimp only
  rw [split2_inner j h2]
  dsimp only
  rw [findallFence_nil _ (by rfl) _]

theorem tryFences_fwj (j : List Char) (h1 : json_loads_ok j = true)
    (h2 : splitOnSub (str "```") j = none) (h3 : pyStrip j = j) (hne : j ≠ []) :
    tryFences (fence_wrap_json j) = some j := by
  unfold tryFences
  rw [findall_p7_fwj j h2]
  rw [show firstValid ['\n' :: (j ++ ['\n'])] = some j from by
    unfold firstValid
    rw [pyStrip_wrapNl h3 hne, h1]
    simp]

theorem split_p7_fwp (j : List Char) (h2 : splitOnSub (str "```") j = none) :
    splitOnSub (str "```json") (fence_wrap_plain j) = none := by
  rw [fwp_shape]
  rw [splitOnSub_cons_false (by rfl)]
  rw [splitOnSub_cons_false (by rfl)]
  rw [splitOnSub_cons_false (by rfl)]
  rw [splitOnSub_cons_false (by rfl)]
  rw [show (j ++ ('\n'::tick::tick::tick::[]) : List Char) = j ++ '\n' :: str "```" from rfl]
  rw [splitOnSub_p7_skip j h2]
  rfl

theorem split_p3_fwp (j : List Char) :
    splitOnSub (str "```") (fence_wrap_plain j) =
      some ([], '\n' :: (j ++ ('\n'::tick::tick::tick::[]))) := by
  rw [fwp_shape]
  rfl

theorem findall_p7_fwp (j : List Char) (h2 : splitOnSub (str "```") j = none) :
    findallFence (str "```json") ((fence_wrap_plain j).length + 1) (fence_wrap_plain j) = [] := by
  show (match splitOnSub (str "```json") (fence_wrap_plain j) with
    | none => []
    | some (_, r1) =>
      match splitOnSub (str "```") r1 with
      | none => []
      | some (inner, r2) =>
        inner :: findallFence (str "```json") (fence_wrap_plain j).length r2) = []
  rw [split_p7_fwp j h2]

theorem findall_p3_fwp (j : List Char) (h2 : splitOnSub (str "```") j = none) :
    findallFence (str "```") ((fence_wrap_plain j).length + 1) (fence_wrap_plain j) =
      ['\n' :: (j ++ ['\n'])] := by
  show (match splitOnSub (str "```") (fence_wrap_plain j) with
    | none => []
    | some (_, r1) =>
      match splitOnSub (str "```") r1 with
      | none => []
      | some (inner, r2) =>
        inner :: findallFence (str "```") (fence_wrap_plain j).length r2) =
      ['\n' :: (j ++ ['\n'])]
  rw [split_p3_fwp]
  dsimp only
  rw [split2_inner j h2]
  dsimp only
  rw [findallFence_nil _ (by rfl) _]

theorem tryFences_fwp (j : List Char) (h1 : json_loads_ok j = true)
    (h2 : splitOnSub (str "```") j = none) (h3 : pyStrip j = j) (hne : j ≠ []) :
    tryFences (fence_wrap_plain j) = some j := by
  unfold tryFences
  rw [findall_p7_fwp j h2, findall_p3_fwp j h2]
  rw [show firstValid ([] : List (List Char)) = none from rfl]
  rw [show firstValid ['\n' :: (j ++ ['\n'])] = some j from by
    unfold firstValid
    rw [pyStrip_wrapNl h3 hne, h1]
    simp]

theorem tryPreamble_fwj (j : List Char) : tryPreamble (fence_wrap_json j) = none := by
  unfold tryPreamble
  rw [show (fence_wrap_json j).map Char.toLower =
      tick :: ((tick::tick:: 'j':: 's':: 'o':: 'n':: '\n'::(j ++ ('\n'::tick::tick::tick::[]))).map Char.toLower) from by
    rw [fwj_shape]; rfl]
  rw [findPreamble_tick]

theorem tryPreamble_fwp (j : List Char) : tryPreamble (fence_wrap_plain j) = none := by
  unfold tryPreamble
  rw [show (fence_wrap_plain j).map Char.toLower =
      tick :: ((tick::tick:: '\n'::(j ++ ('\n'::tick::tick::tick::[]))).map Char.toLower) from by
    rw [fwp_shape]; rfl]
  rw [findPreamble_tick]

theorem extract_fwj (j : List Char) (h1 : json_loads_ok j = true)
    (h2 : splitOnSub (str "```") j = none) (h3 : pyStrip j = j) :
    extract_json (fence_wrap_json j) = some j := by
  have hne : j ≠ [] := by
    intro h
    rw [h, json_loads_ok_nil] at h1
    exact Bool.false_ne_true h1
  have hjf : json_loads_ok (fence_wrap_json j) = false := by
    rw [fwj_shape]; exact json_loads_tick _
  unfold extract_json
  rw [if_neg (by rw [fwj_shape]; simp)]
  rw [pyStrip_fwj, hjf]
  rw [tryPreamble_fwj, tryFences_fwj j h1 h2 h3 hne]
  simp

theorem extract_fwp (j : List Char) (h1 : json_loads_ok j = true)
    (h2 : splitOnSub (str "```") j = none) (h3 : pyStrip j = j) :
    extract_json (fence_wrap_plain j) = some j := by
  have hne : j ≠ [] := by
    intro h
    rw [h, json_loads_ok_nil] at h1
    exact Bool.false_ne_true h1
  have hjf : json_loads_ok (fence_wrap_plain j) = false := by
    rw [fwp_shape]; exact json_loads_tick _
  unfold extract_json
  rw [if_neg (by rw [fwp_shape]; simp)]
  rw [pyStrip_fwp, hjf]
  rw [tryPreamble_fwp, tryFences_fwp j h1 h2 h3 hne]
  simp

theorem containsFence_false {l : List Char} (h : containsFence l = false) :
    splitOnSub (str "```") l = none := by
  unfold containsFence at h
  cases h2 : splitOnSub (str "```") l with
  | none => rfl
  | some pr => rw [h2] at h; simp at h

/-- Claim C9 as stated is false on the code: the valid JSON text consisting
of the string literal whose content is a code fence (three backticks) is not
recovered from its own fenced wrapping — extraction returns nothing, because
the inner fence terminates both candidate regions early. -/
theorem extract_fence_roundtrip_counterexample :
    json_loads_ok (str "\"```\"") = true ∧
    pyStrip (str "\"```\"") = str "\"```\"" ∧
    extract_json (fence_wrap_json (str "\"```\"")) = none ∧
    extract_json (fence_wrap_json (str "\"```\"")) ≠ some (str "\"```\"") := by
  refine ⟨by decide, by decide, by decide, by decide⟩

/-- Claim C9, amended as the counterexample forces: for every valid,
whitespace-trimmed JSON text `j` that does not itself contain the fence
marker (three consecutive backticks), extraction recovers `j` from both the
language-tagged and the untagged fenced wrapping. -/
theorem extract_fence_roundtrip_amended (j : List Char)
    (h1 : json_loads_ok j = true)
    (h2 : containsFence j = false)
    (h3 : pyStrip j = j) :
    extract_json (fence_wrap_json j) = some j ∧
    extract_json (fence_wrap_plain j) = some j :=
  ⟨extract_fwj j h1 (containsFence_false h2) h3,
   extract_fwp j h1 (containsFence_false h2) h3⟩

/-- Witness for the amended C9 at a concrete fence-free JSON text. -/
theorem extract_fence_roundtrip_amended_witness :
    extract_json (fence_wrap_json (str "[42, \"a\"]")) = some (str "[42, \"a\"]") ∧
    extract_json (fence_wrap_plain (str "[42, \"a\"]")) = some (str "[42, \"a\"]") :=
  extract_fence_roundtrip_amended (str "[42, \"a\"]") (by decide) (by decide) (by decide)

/-! ## RequestCache theorems (claims C2, C3, C5, C6, C7) -/


theorem eraseKey_sublist (k : String) :
    ∀ (l : List (String × CacheEntry α)), List.Sublist (eraseKey k l) l := by
  intro l
  induction l with
  | nil => simp [eraseKey]
  | cons x rest ih =>
    rcases x with ⟨k', v⟩
    by_cases hk : k' = k
    · rw [eraseKey, if_pos hk]
      exact List.sublist_cons_self _ _
    · rw [eraseKey, if_neg hk]
      exact ih.cons₂ _

theorem lookupKey_mem {k : String} {e : CacheEntry α} :
    ∀ {l : List (String × CacheEntry α)}, lookupKey k l = some e → (k, e) ∈ l := by
  intro l
  induction l with
  | nil => intro h; simp [lookupKey] at h
  | cons x rest ih =>
    intro h
    rcases x with ⟨k', v⟩
    by_cases hk : k' = k
    · rw [lookupKey, if_pos hk] at h
      cases h
      subst hk
      exact List.mem_cons_self _ _
    · rw [lookupKey, if_neg hk] at h
      exact List.mem_cons_of_mem _ (ih h)

theorem length_eraseKey_of_lookup {k : String} {e : CacheEntry α} :
    ∀ {l : List (String × CacheEntry α)},
      lookupKey k l = some e → (eraseKey k l).length + 1 = l.length := by
  intro l
  induction l with
  | nil => intro h; simp [lookupKey] at h
  | cons x rest ih =>
    intro h
    rcases x with ⟨k', v⟩
    by_cases hk : k' = k
    · rw [eraseKey, if_pos hk]; rfl
    · rw [lookupKey, if_neg hk] at h
      rw [eraseKey, if_neg hk]
      simp [ih h]

theorem not_mem_keys_eraseKey {k : String} :
    ∀ {l : List (String × CacheEntry α)}, (l.map Prod.fst).Nodup →
      k ∉ (eraseKey k l).map Prod.fst := by
  intro l
  induction l with
  | nil => intro _ h; simp [eraseKey] at h
  | cons x rest ih =>
    intro hnd h
    rcases x with ⟨k', v⟩
    simp only [List.map_cons, List.nodup_cons] at hnd
    by_cases hk : k' = k
    · rw [eraseKey, if_pos hk] at h
      subst hk
      exact hnd.1 h
    · rw [eraseKey, if_neg hk] at h
      simp only [List.map_cons, List.mem_cons] at h
      rcases h with h | h
      · exact hk h.symm
      · exact ih hnd.2 h

theorem keys_dictAssign_of_mem {k : String} {v : CacheEntry α} :
    ∀ {l : List (String × CacheEntry α)}, k ∈ l.map Prod.fst →
      (dictAssign k v l).map Prod.fst = l.map Prod.fst := by
  intro l
  induction l with
  | nil => intro h; simp at h
  | cons x rest ih =>
    intro h
    rcases x with ⟨k', v'⟩
    by_cases hk : k' = k
    · rw [dictAssign, if_pos hk]; simp
    · rw [dictAssign, if_neg hk]
      simp only [List.map_cons, List.mem_cons] at h ⊢
      rcases h with h | h
      · exact absurd h.symm hk
      · rw [ih h]

theorem dictAssign_of_not_mem {k : String} {v : CacheEntry α} :
    ∀ {l : List (String × CacheEntry α)}, k ∉ l.map Prod.fst →
      dictAssign k v l = l ++ [(k, v)] := by
  intro l
  induction l with
  | nil => intro _; rfl
  | cons x rest ih =>
    intro h
    rcases x with ⟨k', v'⟩
    simp only [List.map_cons, List.mem_cons] at h
    push_neg at h
    rw [dictAssign, if_neg (fun he => h.1 he.symm), ih h.2]
    simp

theorem mem_dictAssign {k : String} {v : CacheEntry α} {x : String × CacheEntry α} :
    ∀ {l : List (String × CacheEntry α)}, x ∈ dictAssign k v l →
      x ∈ l ∨ x = (k, v) := by
  intro l
  induction l with
  | nil => intro h; simp [dictAssign] at h; right; exact h
  | cons y rest ih =>
    intro h
    rcases y with ⟨k', v'⟩
    by_cases hk : k' = k
    · rw [dictAssign, if_pos hk] at h
      subst hk
      rcases List.mem_cons.mp h with h | h
      · right; rw [h]
      · left; exact List.mem_cons_of_mem _ h
    · rw [dictAssign, if_neg hk] at h
      rcases List.mem_cons.mp h with h | h
      · left; rw [h]; exact List.mem_cons_self _ _
      · rcases ih h with h | h
        · left; exact List.mem_cons_of_mem _ h
        · right; exact h

theorem length_dictAssign_le (k : String) (v : CacheEntry α) :
    ∀ (l : List (String × CacheEntry α)),
      (dictAssign k v l).length ≤ l.length + 1 := by
  intro l
  induction l with
  | nil => simp [dictAssign]
  | cons x rest ih =>
    rcases x with ⟨k', v'⟩
    by_cases hk : k' = k
    · rw [dictAssign, if_pos hk]; simp
    · rw [dictAssign, if_neg hk]
      simpa using ih

theorem lookup_dictAssign (k : String) (v : CacheEntry α) :
    ∀ (l : List (String × CacheEntry α)),
      lookupKey k (dictAssign k v l) = some v := by
  intro l
  induction l with
  | nil => simp [dictAssign, lookupKey]
  | cons x rest ih =>
    rcases x with ⟨k', v'⟩
    by_cases hk : k' = k
    · rw [dictAssign, if_pos hk, lookupKey, if_pos hk]
    · rw [dictAssign, if_neg hk, lookupKey, if_neg hk]
      exact ih

theorem nodup_dictAssign {k : String} {v : CacheEntry α}
    {l : List (String × CacheEntry α)} (h : (l.map Prod.fst).Nodup) :
    ((dictAssign k v l).map Prod.fst).Nodup := by
  by_cases hm : k ∈ l.map Prod.fst
  · rw [keys_dictAssign_of_mem hm]; exact h
  · rw [dictAssign_of_not_mem hm]
    simp only [List.map_append, List.map_cons, List.map_nil]
    rw [List.nodup_append]
    exact ⟨h, List.nodup_singleton _, by simpa using hm⟩

theorem evictLoop_sound {m : Int} :
    ∀ {l c' : List (String × CacheEntry α)} {n : Nat},
      evictLoop m l = some (c', n) → List.Sublist c' l ∧ (c'.length : Int) < m := by
  intro l
  induction l with
  | nil =>
    intro c' n h
    rw [evictLoop] at h
    split at h
    · exact absurd h (by simp)
    · cases h
      refine ⟨List.Sublist.refl _, ?_⟩
      simp only [List.length_nil, Nat.cast_zero]
      omega
  | cons x rest ih =>
    intro c' n h
    rw [evictLoop] at h
    split at h
    · cases h2 : evictLoop m rest with
      | none => rw [h2] at h; simp at h
      | some pr =>
        rw [h2] at h
        rcases pr with ⟨c2, n2⟩
        simp at h
        obtain ⟨hc, hn⟩ := h
        obtain ⟨hs, hl⟩ := ih h2
        subst hc
        exact ⟨hs.trans (List.sublist_cons_self _ _), hl⟩
    · cases h
      rename_i hcond
      refine ⟨List.Sublist.refl _, ?_⟩
      omega

theorem evictLoop_below {m : Int} {l : List (String × CacheEntry α)}
    (h : (l.length : Int) < m) : evictLoop m l = some (l, 0) := by
  cases l with
  | nil =>
    rw [evictLoop, if_neg]
    simp at h
    omega
  | cons x rest =>
    rw [evictLoop, if_neg]
    omega

theorem evictLoop_at_capacity {m : Int} {l : List (String × CacheEntry α)}
    (hlen : (l.length : Int) = m) (hm : 1 ≤ m) :
    evictLoop m l = some (l.drop 1, 1) := by
  cases l with
  | nil => simp at hlen; omega
  | cons x rest =>
    rw [evictLoop, if_pos (by omega)]
    rw [evictLoop_below (by simp at hlen ⊢; omega)]
    rfl



/-- Claim C5: the request fingerprint is a deterministic function of only the
six canonical fields — two requests agreeing on them (with a missing field
hashing as the deterministic absent value) hash identically, regardless of
streaming flag, session identifier, or other metadata. -/
theorem compute_hash_canonical (r1 r2 : Request)
    (h : canonicalFields r1 = canonicalFields r2) :
    compute_hash r1 = compute_hash r2 := by
  unfold canonicalFields at h
  simp only [Prod.mk.injEq] at h
  obtain ⟨h1, h2, h3, h4, h5, h6⟩ := h
  unfold compute_hash sha256_model
  rw [h1, h2, h3, h4, h5, h6]

/-- Witness for C5: `reqA` and `reqA2` differ in stream flag, session id and
metadata, yet hash identically. -/
theorem compute_hash_canonical_witness : compute_hash reqA = compute_hash reqA2 :=
  compute_hash_canonical reqA reqA2 rfl

/-- Claim C6: on an enabled cache, `get` on a fingerprint whose entry is
expired (`now > expires_at`) removes the entry, records exactly one
expiration and one miss, and returns a miss; and `get` never returns the
payload of a logically expired entry. -/
theorem cache_get_expired_spec (s : RequestCache α) (now : Int) (r : Request) :
    (∀ e, s.enabled = true → lookupKey (compute_hash r) s.cache = some e →
      now > e.expires_at →
      (s.get now r).1 = none ∧
      (s.get now r).2.cache = eraseKey (compute_hash r) s.cache ∧
      (s.get now r).2.stats.expirations = s.stats.expirations + 1 ∧
      (s.get now r).2.stats.misses = s.stats.misses + 1) ∧
    (∀ v, (s.get now r).1 = some v →
      ∃ e, lookupKey (compute_hash r) s.cache = some e ∧ ¬ now > e.expires_at ∧
        v = e.response) := by
  constructor
  · intro e he hl ht
    unfold RequestCache.get
    rw [he]
    simp only [Bool.not_true, Bool.false_eq_true, if_false, hl]
    rw [if_pos ht]
    exact ⟨rfl, rfl, rfl, rfl⟩
  · intro v hv
    unfold RequestCache.get at hv
    cases he : s.enabled with
    | false => rw [he] at hv; simp at hv
    | true =>
      rw [he] at hv
      simp only [Bool.not_true, Bool.false_eq_true, if_false] at hv
      cases hl : lookupKey (compute_hash r) s.cache with
      | none => rw [hl] at hv; simp at hv
      | some e =>
        rw [hl] at hv
        dsimp only at hv
        by_cases ht : now > e.expires_at
        · rw [if_pos ht] at hv; simp at hv
        · rw [if_neg ht] at hv
          dsimp only at hv
          cases hv
          exact ⟨e, rfl, ht, rfl⟩

/-- Witness for C6: an entry stored at time 0 with TTL 60 is expired at time
61. -/
theorem cache_get_expired_spec_witness :
    (cacheW.get 61 reqA).1 = none ∧
    (cacheW.get 61 reqA).2.stats.expirations = cacheW.stats.expirations + 1 ∧
    (cacheW.get 61 reqA).2.stats.misses = cacheW.stats.misses + 1 := by
  have h := (cache_get_expired_spec cacheW 61 reqA).1 ⟨7, 0, 60, 0⟩ rfl (by decide)
    (by decide)
  exact ⟨h.1, h.2.2.1, h.2.2.2⟩



/-- Claim C7: every cache operation (`get`, `set`, `clear`,
`cleanup_expired`) preserves the state invariant: at most one entry per
fingerprint, size bounded by the configured capacity, and every entry's
`expires_at` equal to its `created_at` plus the configured TTL, fixed at
creation. -/
theorem cache_ops_preserve_invariant (s : RequestCache α) (hInv : Inv s) :
    (∀ now r, Inv (s.get now r).2) ∧
    (∀ now r v s', s.set now r v = some s' → Inv s') ∧
    Inv s.clear.2 ∧
    (∀ now, Inv (s.cleanup_expired now).2) := by
  obtain ⟨hnd, hlen, httl⟩ := hInv
  refine ⟨?_, ?_, ?_, ?_⟩
  · -- get
    intro now r
    unfold RequestCache.get
    cases he : s.enabled with
    | false => exact ⟨hnd, hlen, httl⟩
    | true =>
      simp only [Bool.not_true, Bool.false_eq_true, if_false]
      cases hl : lookupKey (compute_hash r) s.cache with
      | none => exact ⟨hnd, hlen, httl⟩
      | some e =>
        dsimp only
        by_cases ht : now > e.expires_at
        · rw [if_pos ht]
          refine ⟨?_, ?_, ?_⟩
          · exact hnd.sublist ((eraseKey_sublist _ _).map _)
          · have h2 := (eraseKey_sublist (compute_hash r) s.cache).length_le
            simp only
            omega
          · intro kv hkv
            exact httl kv ((eraseKey_sublist _ _).subset hkv)
        · rw [if_neg ht]
          refine ⟨?_, ?_, ?_⟩
          · simp only [List.map_append, List.map_cons, List.map_nil]
            rw [List.nodup_append]
            refine ⟨hnd.sublist ((eraseKey_sublist _ _).map _), List.nodup_singleton _, ?_⟩
            intro a ha hb
            simp only [List.mem_singleton] at hb
            subst hb
            exact not_mem_keys_eraseKey hnd ha
          · have h2 := length_eraseKey_of_lookup hl
            simp only [List.length_append, List.length_cons, List.length_nil]
            omega
          · intro kv hkv
            simp only [List.mem_append, List.mem_singleton] at hkv
            rcases hkv with hkv | hkv
            · exact httl kv ((eraseKey_sublist _ _).subset hkv)
            · subst hkv
              exact httl (compute_hash r, e) (lookupKey_mem hl)
  · -- set
    intro now r v s' hset
    unfold RequestCache.set at hset
    cases he : s.enabled with
    | false =>
      rw [he] at hset
      simp only [Bool.not_false, if_true] at hset
      cases hset
      exact ⟨hnd, hlen, httl⟩
    | true =>
      rw [he] at hset
      simp only [Bool.not_true, Bool.false_eq_true, if_false] at hset
      cases hev : evictLoop s.max_size s.cache with
      | none => rw [hev] at hset; simp at hset
      | some pr =>
        rcases pr with ⟨c2, evs⟩
        rw [hev] at hset
        dsimp only at hset
        obtain ⟨hsub, hlt⟩ := evictLoop_sound hev
        cases hset
        refine ⟨?_, ?_, ?_⟩
        · exact nodup_dictAssign (hnd.sublist (hsub.map _))
        · have h1 := length_dictAssign_le (compute_hash r) ⟨v, now, now + s.ttl_seconds, 0⟩ c2
          simp only
          omega
        · intro kv hkv
          rcases mem_dictAssign hkv with h | h
          · exact httl kv (hsub.subset h)
          · subst h; rfl
  · -- clear
    refine ⟨List.nodup_nil, ?_, ?_⟩
    · simp only [RequestCache.clear, List.length_nil, Nat.cast_zero]
      omega
    · intro kv hkv
      simp [RequestCache.clear] at hkv
  · -- cleanup_expired
    intro now
    refine ⟨?_, ?_, ?_⟩
    · exact hnd.sublist ((List.filter_sublist _).map _)
    · have h2 : (s.cache.filter (fun kv => !decide (now > kv.2.expires_at))).length ≤
          s.cache.length := (List.filter_sublist _).length_le
      simp only [RequestCache.cleanup_expired]
      omega
    · intro kv hkv
      exact httl kv ((List.filter_sublist _).subset hkv)

/-- The invariant holds for a freshly constructed enabled cache. -/
theorem invInit : Inv (RequestCache.init Nat true 2 60) := by
  refine ⟨?_, ?_, ?_⟩ <;> decide

/-- Witness for C7 at a concrete enabled cache. -/
theorem cache_ops_preserve_invariant_witness :
    Inv ((RequestCache.init Nat true 2 60).get 5 reqA).2 ∧
    Inv cacheOne ∧
    Inv (RequestCache.init Nat true 2 60).clear.2 ∧
    Inv ((RequestCache.init Nat true 2 60).cleanup_expired 0).2 := by
  have h := cache_ops_preserve_invariant (RequestCache.init Nat true 2 60) invInit
  exact ⟨h.1 5 reqA, h.2.1 0 reqA 1 cacheOne rfl, h.2.2.1, h.2.2.2 0⟩



/-- Claim C2, amended as the counterexample forces: `set` is a no-op when
disabled; at capacity it evicts exactly the least-recently-used entry,
recording one eviction, before inserting; inserting a fingerprint not
already present leaves its entry in the most-recently-used position; but
re-inserting a fingerprint that already has an entry updates the entry in
place, preserving its existing recency position. -/
theorem cache_set_lru_amended (s : RequestCache α) (now : Int) (r : Request) (v : α) :
    (s.enabled = false → s.set now r v = some s) ∧
    (s.enabled = true → (s.cache.length : Int) = s.max_size → 1 ≤ s.max_size →
      s.set now r v = some { s with
        cache := dictAssign (compute_hash r) ⟨v, now, now + s.ttl_seconds, 0⟩
          (s.cache.drop 1),
        stats := { s.stats with evictions := s.stats.evictions + 1 } }) ∧
    (s.enabled = true → (s.cache.length : Int) < s.max_size →
      (compute_hash r ∉ s.cache.map Prod.fst →
        s.set now r v = some { s with
          cache := s.cache ++ [(compute_hash r, ⟨v, now, now + s.ttl_seconds, 0⟩)] }) ∧
      (compute_hash r ∈ s.cache.map Prod.fst →
        (s.set now r v).map (fun s2 => s2.cache.map Prod.fst) =
          some (s.cache.map Prod.fst) ∧
        (s.set now r v).map (fun s2 => lookupKey (compute_hash r) s2.cache) =
          some (some ⟨v, now, now + s.ttl_seconds, 0⟩))) := by
  refine ⟨?_, ?_, ?_⟩
  · intro he
    unfold RequestCache.set
    rw [he]
    rfl
  · intro he hlen hm
    unfold RequestCache.set
    rw [he]
    simp only [Bool.not_true, Bool.false_eq_true, if_false]
    rw [evictLoop_at_capacity hlen hm]
  · intro he hlen
    have hset : s.set now r v = some { s with
        cache := dictAssign (compute_hash r) ⟨v, now, now + s.ttl_seconds, 0⟩ s.cache } := by
      unfold RequestCache.set
      rw [he]
      simp only [Bool.not_true, Bool.false_eq_true, if_false]
      rw [evictLoop_below hlen]
      rfl
    constructor
    · intro hnm
      rw [hset, dictAssign_of_not_mem hnm]
    · intro hm
      rw [hset]
      constructor
      · simp only [Option.map_some']
        rw [keys_dictAssign_of_mem hm]
      · simp only [Option.map_some']
        rw [lookup_dictAssign]

/-- Claim C2 as stated is false on the code: re-`set`ting a fingerprint that
already has an entry updates it in place, leaving it in its old recency
position instead of the most-recently-used one. After set(A), set(B),
set(A'), A's key is still first (least recently used) and B's key — not A's —
is in the most-recently-used position. -/
theorem cache_set_mru_counterexample :
    ((((RequestCache.init Nat true 10 60).set 0 reqA 1).bind
      (fun s => s.set 1 reqB 2)).bind (fun s => s.set 2 reqA 3)).map
      (fun s => s.cache.map Prod.fst) =
        some [compute_hash reqA, compute_hash reqB] ∧
    ((((RequestCache.init Nat true 10 60).set 0 reqA 1).bind
      (fun s => s.set 1 reqB 2)).bind (fun s => s.set 2 reqA 3)).map
      (fun s => (s.cache.map Prod.fst).getLast?) =
        some (some (compute_hash reqB)) ∧
    compute_hash reqA ≠ compute_hash reqB := by
  refine ⟨by decide, by decide, by decide⟩

/-- Claim C3 evidence: the constructor accepts non-positive capacity and
TTL instead of failing fast. With capacity 0 construction succeeds and the
first enabled `set` raises (`none` models the escaping `StopIteration`);
with TTL 0 construction succeeds and entries are silently expired on the
next `get` — degradation at use time, exactly what the spec rules out. -/
theorem init_accepts_nonpositive_config :
    (RequestCache.init Nat true 0 60).max_size = 0 ∧
    (RequestCache.init Nat true 0 60).set 0 reqA 1 = none ∧
    (RequestCache.init Nat true 10 0).ttl_seconds = 0 ∧
    ((RequestCache.init Nat true 10 0).set 0 reqA 1).map
      (fun s => (s.get 1 reqA).1) = some none := by
  refine ⟨rfl, by decide, rfl, by decide⟩

/-- Witness for the amended C2: disabled no-op; eviction at capacity; append
of a new fingerprint; in-place update of an existing fingerprint. -/
theorem cache_set_lru_amended_witness :
    ((RequestCache.init Nat false 5 60).set 0 reqA 1 =
      some (RequestCache.init Nat false 5 60)) ∧
    (cacheTwo.set 2 reqC 9 = some { cacheTwo with
      cache := dictAssign (compute_hash reqC) ⟨9, 2, 62, 0⟩ (cacheTwo.cache.drop 1),
      stats := { cacheTwo.stats with evictions := cacheTwo.stats.evictions + 1 } }) ∧
    (cacheOne.set 1 reqB 2 = some { cacheOne with
      cache := cacheOne.cache ++ [(compute_hash reqB, ⟨2, 1, 61, 0⟩)] }) ∧
    ((cacheOne.set 1 reqA 5).map (fun s2 => s2.cache.map Prod.fst) =
      some (cacheOne.cache.map Prod.fst)) := by
  refine ⟨(cache_set_lru_amended (RequestCache.init Nat false 5 60) 0 reqA 1).1 rfl,
    ?_, ?_, ?_⟩
  · have h := (cache_set_lru_amended cacheTwo 2 reqC 9).2.1 rfl (by decide) (by decide)
    exact h
  · have h := ((cache_set_lru_amended cacheOne 1 reqB 2).2.2 rfl (by decide)).1 (by decide)
    exact h
  · have h := (((cache_set_lru_amended cacheOne 1 reqA 5).2.2 rfl (by decide)).2 (by decide)).1
    exact h


end CCW
